import Mathlib

/-!
Shallow embedding of the ring buffer implementation in `ring_buffer.c` /
`ring_buffer.h`.

Byte memory is modelled as `List Nat` (one entry per byte).  C pointers that
may be `NULL` are modelled as `Option`: `none` is a null pointer.  The
`uint32_t` arithmetic of the source (the `offset` local in push/pop and the
addition inside `ring_buffer_next_index`) is modelled on `Nat` with an
explicit `% 2 ^ 32`.
-/

/-- Modulus of `uint32_t` arithmetic. -/
def UINT32_MOD : Nat := 2 ^ 32

/-- Mask used by the source to mark a handle as initialized (`0x5D`). -/
def RING_BUFFER_INITIALIZE_MASK : Nat := 0x5D

/-- Status codes of `ring_buffer_status_t` in `ring_buffer.h`. -/
inductive ring_buffer_status_t where
  | RING_BUFFER_OK
  | RING_BUFFER_FAIL
  | RING_BUFFER_INVALID_PARAMS
  | RING_BUFFER_FULL
  | RING_BUFFER_EMPTY
  | RING_BUFFER_NOT_INITIALIZED
  | RING_BUFFER_ALREADY_INITIALIZED
  | RING_BUFFER_UNKNOWN_ERROR
deriving DecidableEq, Repr

export ring_buffer_status_t (RING_BUFFER_OK RING_BUFFER_FAIL
  RING_BUFFER_INVALID_PARAMS RING_BUFFER_FULL RING_BUFFER_EMPTY
  RING_BUFFER_NOT_INITIALIZED RING_BUFFER_ALREADY_INITIALIZED
  RING_BUFFER_UNKNOWN_ERROR)

/-- The `ring_buffer_t` structure of `ring_buffer.h`.  The externally owned
storage pointed to by the `buffer` member is inlined as the list of the bytes
it points at. -/
structure ring_buffer_t where
  buffer : List Nat
  length : Nat
  element_size : Nat
  head : Nat
  tail : Nat
  init_flag : Nat
  is_full : Bool
  is_empty : Bool
  is_dynamic : Bool
deriving DecidableEq, Repr

/-- Model of `memcpy(&dst[off], src, n)`: write `n` bytes of `src` into `dst`
starting at byte offset `off`. -/
def memcpy_write (dst : List Nat) (off : Nat) (src : List Nat) (n : Nat) :
    List Nat :=
  dst.take off ++ src.take n ++ dst.drop (off + n)

/-- Model of `memcpy(dst, &src[off], n)`: the `n` bytes of `src` starting at
byte offset `off`. -/
def memcpy_read (src : List Nat) (off : Nat) (n : Nat) : List Nat :=
  (src.drop off).take n

/-- Model of `memset(dst, 0, n)`: overwrite the first `n` bytes of `dst` with
zero bytes. -/
def memset_zero (dst : List Nat) (n : Nat) : List Nat :=
  List.replicate n 0 ++ dst.drop n

/-- `ring_buffer_next_index` from `ring_buffer.c` (the `+ 1U` addition is
`uint32_t` arithmetic). -/
def ring_buffer_next_index (index lenght : Nat) : Nat :=
  ((index + 1) % UINT32_MOD) % lenght

/-- `ring_buffer_prev_index` from `ring_buffer.c`. -/
def ring_buffer_prev_index (index lenght : Nat) : Nat :=
  if index = 0 then lenght - 1 else index - 1

/-- `ring_buffer_init` from `ring_buffer.c`.  The returned option is the
struct the handle points at after the call (`none` when the handle was
null). -/
def ring_buffer_init (handle : Option ring_buffer_t) (element_size : Nat)
    (length : Nat) (buffer : Option (List Nat)) :
    ring_buffer_status_t × Option ring_buffer_t :=
  match handle, buffer with
  | none, _ => (RING_BUFFER_INVALID_PARAMS, none)
  | some h, none => (RING_BUFFER_INVALID_PARAMS, some h)
  | some h, some buf =>
    if h.init_flag = RING_BUFFER_INITIALIZE_MASK then
      (RING_BUFFER_ALREADY_INITIALIZED, some h)
    else if element_size = 0 ∨ length < 2 then
      (RING_BUFFER_INVALID_PARAMS, some h)
    else
      (RING_BUFFER_OK,
       some { buffer := buf
              length := length
              element_size := element_size
              head := 0
              tail := 0
              init_flag := RING_BUFFER_INITIALIZE_MASK
              is_full := false
              is_empty := true
              is_dynamic := false })

/-- `ring_buffer_destroy` from `ring_buffer.c` (memset of the whole handle;
the zeroed `buffer` pointer is modelled by the empty byte list). -/
def ring_buffer_destroy (handle : Option ring_buffer_t) :
    ring_buffer_status_t × Option ring_buffer_t :=
  match handle with
  | none => (RING_BUFFER_INVALID_PARAMS, none)
  | some h =>
    if h.init_flag ≠ RING_BUFFER_INITIALIZE_MASK then
      (RING_BUFFER_NOT_INITIALIZED, some h)
    else
      (RING_BUFFER_OK,
       some { buffer := []
              length := 0
              element_size := 0
              head := 0
              tail := 0
              init_flag := 0
              is_full := false
              is_empty := false
              is_dynamic := false })

/-- `ring_buffer_push` from `ring_buffer.c`.  `element` is the byte content
the element pointer points at (`none` when it is null). -/
def ring_buffer_push (handle : Option ring_buffer_t)
    (element : Option (List Nat)) : ring_buffer_status_t × Option ring_buffer_t :=
  match handle, element with
  | none, _ => (RING_BUFFER_INVALID_PARAMS, none)
  | some h, none => (RING_BUFFER_INVALID_PARAMS, some h)
  | some h, some e =>
    if h.init_flag ≠ RING_BUFFER_INITIALIZE_MASK then
      (RING_BUFFER_NOT_INITIALIZED, some h)
    else if h.is_full = true then
      (RING_BUFFER_FULL, some h)
    else
      let offset := (h.head * h.element_size) % UINT32_MOD
      let buffer' := memcpy_write h.buffer offset e h.element_size
      let head' := ring_buffer_next_index h.head h.length
      let is_full' := if head' = h.tail then true else h.is_full
      (RING_BUFFER_OK,
       some { h with buffer := buffer'
                     head := head'
                     is_full := is_full'
                     is_empty := false })

/-- `ring_buffer_pop` from `ring_buffer.c`.  `element` is `some ()` when the
output pointer is non-null; the third component of the result is the byte
content written through it (`[]` on the failure paths, which write
nothing). -/
def ring_buffer_pop (handle : Option ring_buffer_t) (element : Option Unit) :
    ring_buffer_status_t × Option ring_buffer_t × List Nat :=
  match handle, element with
  | none, _ => (RING_BUFFER_INVALID_PARAMS, none, [])
  | some h, none => (RING_BUFFER_INVALID_PARAMS, some h, [])
  | some h, some _ =>
    if h.init_flag ≠ RING_BUFFER_INITIALIZE_MASK then
      (RING_BUFFER_NOT_INITIALIZED, some h, [])
    else if h.is_empty = true then
      (RING_BUFFER_EMPTY, some h, [])
    else
      let offset := (h.tail * h.element_size) % UINT32_MOD
      let out := memcpy_read h.buffer offset h.element_size
      let tail' := ring_buffer_next_index h.tail h.length
      let is_empty' := if h.head = tail' then true else h.is_empty
      (RING_BUFFER_OK,
       some { h with tail := tail'
                     is_empty := is_empty'
                     is_full := false },
       out)

/-- `ring_buffer_state` from `ring_buffer.c`. -/
def ring_buffer_state (handle : Option ring_buffer_t) : ring_buffer_status_t :=
  match handle with
  | none => RING_BUFFER_INVALID_PARAMS
  | some h =>
    if h.init_flag ≠ RING_BUFFER_INITIALIZE_MASK then
      RING_BUFFER_NOT_INITIALIZED
    else if h.is_empty = true then
      RING_BUFFER_EMPTY
    else if h.is_full = true then
      RING_BUFFER_FULL
    else
      RING_BUFFER_OK

/-- `ring_buffer_clear` from `ring_buffer.c`. -/
def ring_buffer_clear (handle : Option ring_buffer_t) :
    ring_buffer_status_t × Option ring_buffer_t :=
  match handle with
  | none => (RING_BUFFER_INVALID_PARAMS, none)
  | some h =>
    if h.init_flag ≠ RING_BUFFER_INITIALIZE_MASK then
      (RING_BUFFER_NOT_INITIALIZED, some h)
    else
      (RING_BUFFER_OK,
       some { h with buffer := memset_zero h.buffer (h.length * h.element_size)
                     head := 0
                     tail := 0
                     is_full := false
                     is_empty := true })

/-!
Specification-level notions: the state invariant maintained by the
operations, the caller's storage-size obligation, the abstraction of a
buffer state to the queue of elements it holds, and harnesses for call
sequences.
-/

/-- State invariant of an initialized ring buffer: the handle is marked
initialized, the construction-time bounds on `length` (a `uint32_t` argument,
at least 2) and `element_size` hold, both indices are in range, and the
`is_empty`/`is_full` flags are consistent with the index comparison. -/
def RBInv (h : ring_buffer_t) : Prop :=
  h.init_flag = RING_BUFFER_INITIALIZE_MASK ∧
  2 ≤ h.length ∧ h.length < UINT32_MOD ∧ 1 ≤ h.element_size ∧
  h.head < h.length ∧ h.tail < h.length ∧
  (h.head = h.tail ↔ (h.is_empty = true ∨ h.is_full = true)) ∧
  ¬(h.is_empty = true ∧ h.is_full = true)

instance (h : ring_buffer_t) : Decidable (RBInv h) := by
  unfold RBInv; infer_instance

/-- Caller obligation on the supplied storage: it spans exactly
`length * element_size` bytes, and that byte count fits a `uint32_t` (so the
truncated offset arithmetic of push/pop is exact). -/
def WFb (h : ring_buffer_t) : Prop :=
  h.buffer.length = h.length * h.element_size ∧
  h.length * h.element_size < UINT32_MOD

instance (h : ring_buffer_t) : Decidable (WFb h) := by
  unfold WFb; infer_instance

/-- Number of elements currently held, derived from the flags and the
`(head - tail + length) mod length` formula of the specification. -/
def rb_count (h : ring_buffer_t) : Nat :=
  if h.is_empty = true then 0
  else if h.is_full = true then h.length
  else (h.head + h.length - h.tail) % h.length

/-- Byte content of storage slot `i` (bytes
`[i * element_size, (i + 1) * element_size)`). -/
def slot (h : ring_buffer_t) (i : Nat) : List Nat :=
  memcpy_read h.buffer (i * h.element_size) h.element_size

/-- Abstraction of a buffer state: the queue of held elements, oldest
first, read from the slots starting at `tail`. -/
def elems (h : ring_buffer_t) : List (List Nat) :=
  (List.range (rb_count h)).map (fun i => slot h ((h.tail + i) % h.length))

/-- Push each element of `es` in turn; `none` as soon as one push does not
return `RING_BUFFER_OK`. -/
def pushSeq (h : ring_buffer_t) : List (List Nat) → Option ring_buffer_t
  | [] => some h
  | e :: es =>
    match ring_buffer_push (some h) (some e) with
    | (RING_BUFFER_OK, some h') => pushSeq h' es
    | _ => none

/-- Pop `n` times, collecting the outputs in order; `none` as soon as one
pop does not return `RING_BUFFER_OK`. -/
def popSeq (h : ring_buffer_t) : Nat → Option (List (List Nat) × ring_buffer_t)
  | 0 => some ([], h)
  | n + 1 =>
    match ring_buffer_pop (some h) (some ()) with
    | (RING_BUFFER_OK, some h', out) =>
      match popSeq h' n with
      | some (outs, h'') => some (out :: outs, h'')
      | none => none
    | _ => none

/-- Pop `n` times unconditionally, collecting the status of every call and
the final state. -/
def popN (h : ring_buffer_t) : Nat → List ring_buffer_status_t × ring_buffer_t
  | 0 => ([], h)
  | n + 1 =>
    match ring_buffer_pop (some h) (some ()) with
    | (st, some h', _) =>
      let rest := popN h' n
      (st :: rest.1, rest.2)
    | (st, none, _) => ([st], h)

/-- Buffer states reachable from a successful `ring_buffer_init` by any
sequence of `ring_buffer_push`, `ring_buffer_pop` and `ring_buffer_clear`
calls (successful or failing; `length` is a `uint32_t` argument). -/
inductive Reachable : ring_buffer_t → Prop where
  | init (h0 : ring_buffer_t) (element_size length : Nat) (buf : List Nat)
      (h : ring_buffer_t) (hlen : length < UINT32_MOD)
      (heq : ring_buffer_init (some h0) element_size length (some buf) =
        (RING_BUFFER_OK, some h)) : Reachable h
  | push (h h' : ring_buffer_t) (e : List Nat) (st : ring_buffer_status_t)
      (hr : Reachable h)
      (heq : ring_buffer_push (some h) (some e) = (st, some h')) :
      Reachable h'
  | pop (h h' : ring_buffer_t) (st : ring_buffer_status_t) (out : List Nat)
      (hr : Reachable h)
      (heq : ring_buffer_pop (some h) (some ()) = (st, some h', out)) :
      Reachable h'
  | clear (h h' : ring_buffer_t) (st : ring_buffer_status_t)
      (hr : Reachable h)
      (heq : ring_buffer_clear (some h) = (st, some h')) : Reachable h'

/-!
Helper lemmas: byte-range reasoning for the `memcpy`/`memset` models and
modular arithmetic for the index/count bookkeeping.
-/

lemma length_memcpy_write (dst src : List Nat) (off n : Nat)
    (h1 : off + n ≤ dst.length) (h2 : n ≤ src.length) :
    (memcpy_write dst off src n).length = dst.length := by
  simp only [memcpy_write, List.length_append, List.length_take,
    List.length_drop]
  omega

lemma memcpy_read_write_self (dst src : List Nat) (off n : Nat)
    (h1 : off + n ≤ dst.length) (h2 : src.length = n) :
    memcpy_read (memcpy_write dst off src n) off n = src := by
  have hsrc : src.take n = src := List.take_of_length_le (by omega)
  simp only [memcpy_read, memcpy_write, List.append_assoc, hsrc]
  rw [List.drop_left' (show (dst.take off).length = off by simp; omega),
    List.take_left' h2]

lemma memcpy_read_write_left (dst src : List Nat) (off n off2 n2 : Nat)
    (hd : off2 + n2 ≤ off) (hoff : off ≤ dst.length) :
    memcpy_read (memcpy_write dst off src n) off2 n2 =
      memcpy_read dst off2 n2 := by
  simp only [memcpy_read, memcpy_write, List.append_assoc]
  rw [List.drop_append_eq_append_drop, List.take_append_eq_append_take]
  have h1 : ((dst.take off).drop off2).length = off - off2 := by simp; omega
  rw [h1, show n2 - (off - off2) = 0 from by omega, List.take_zero,
    List.append_nil, List.drop_take, List.take_take]
  congr 1
  omega

lemma memcpy_read_write_right (dst src : List Nat) (off n off2 n2 : Nat)
    (hd : off + n ≤ off2) (h1 : off + n ≤ dst.length) (h2 : n ≤ src.length) :
    memcpy_read (memcpy_write dst off src n) off2 n2 =
      memcpy_read dst off2 n2 := by
  simp only [memcpy_read, memcpy_write]
  rw [List.drop_append_eq_append_drop,
    List.drop_eq_nil_of_le
      (show (dst.take off ++ src.take n).length ≤ off2 by simp; omega),
    List.nil_append,
    show (dst.take off ++ src.take n).length = off + n from by simp; omega,
    List.drop_drop]
  congr 2
  omega

lemma index_ne_head (head tail L i : Nat) (hh : head < L) (ht : tail < L)
    (_hne : head ≠ tail) (hi : i < (head + L - tail) % L) :
    (tail + i) % L ≠ head := by
  have hL0 : 0 < L := by omega
  have hiL : i < L := lt_of_lt_of_le hi (Nat.le_of_lt (Nat.mod_lt _ hL0))
  intro heq
  by_cases hc : tail ≤ head
  · rw [Nat.mod_eq_sub_mod (show L ≤ head + L - tail by omega),
      Nat.mod_eq_of_lt (show head + L - tail - L < L by omega)] at hi
    by_cases hw : tail + i < L
    · rw [Nat.mod_eq_of_lt hw] at heq; omega
    · rw [Nat.mod_eq_sub_mod (show L ≤ tail + i by omega),
        Nat.mod_eq_of_lt (show tail + i - L < L by omega)] at heq
      omega
  · rw [Nat.mod_eq_of_lt (show head + L - tail < L by omega)] at hi
    by_cases hw : tail + i < L
    · rw [Nat.mod_eq_of_lt hw] at heq; omega
    · rw [Nat.mod_eq_sub_mod (show L ≤ tail + i by omega),
        Nat.mod_eq_of_lt (show tail + i - L < L by omega)] at heq
      omega

lemma index_count_eq_head (head tail L : Nat) (hh : head < L) (ht : tail < L)
    (_hne : head ≠ tail) :
    (tail + (head + L - tail) % L) % L = head := by
  by_cases hc : tail ≤ head
  · rw [Nat.mod_eq_sub_mod (show L ≤ head + L - tail by omega),
      Nat.mod_eq_of_lt (show head + L - tail - L < L by omega),
      show tail + (head + L - tail - L) = head by omega,
      Nat.mod_eq_of_lt hh]
  · rw [Nat.mod_eq_of_lt (show head + L - tail < L by omega),
      show tail + (head + L - tail) = head + L by omega, Nat.add_mod_right,
      Nat.mod_eq_of_lt hh]

lemma push_count_arith (head tail L : Nat) (hh : head < L) (ht : tail < L)
    (hL : 2 ≤ L) :
    (if (head + 1) % L = tail then L
     else ((head + 1) % L + L - tail) % L) =
    (if head = tail then 0 else (head + L - tail) % L) + 1 := by
  by_cases hw : head + 1 < L
  · rw [Nat.mod_eq_of_lt hw]
    by_cases hft : head + 1 = tail
    · rw [if_pos hft, if_neg (show ¬head = tail by omega),
        Nat.mod_eq_of_lt (show head + L - tail < L by omega)]
      omega
    · rw [if_neg hft]
      by_cases he0 : head = tail
      · rw [if_pos he0, show head + 1 + L - tail = L + 1 by omega,
          Nat.mod_eq_sub_mod (show L ≤ L + 1 by omega),
          Nat.mod_eq_of_lt (show L + 1 - L < L by omega)]
        omega
      · rw [if_neg he0]
        by_cases hbig : tail ≤ head
        · rw [Nat.mod_eq_sub_mod (show L ≤ head + 1 + L - tail by omega),
            Nat.mod_eq_of_lt (show head + 1 + L - tail - L < L by omega),
            Nat.mod_eq_sub_mod (show L ≤ head + L - tail by omega),
            Nat.mod_eq_of_lt (show head + L - tail - L < L by omega)]
          omega
        · rw [Nat.mod_eq_of_lt (show head + 1 + L - tail < L by omega),
            Nat.mod_eq_of_lt (show head + L - tail < L by omega)]
          omega
  · have e1 : (head + 1) % L = 0 := by
      rw [show head + 1 = L from by omega]
      exact Nat.mod_self L
    rw [e1]
    by_cases hft : (0 : Nat) = tail
    · rw [if_pos hft, if_neg (show ¬head = tail by omega),
        show head + L - tail = head + L by omega, Nat.add_mod_right,
        Nat.mod_eq_of_lt hh]
      omega
    · rw [if_neg hft]
      by_cases he0 : head = tail
      · rw [if_pos he0, show 0 + L - tail = 1 by omega,
          Nat.mod_eq_of_lt (show 1 < L by omega)]
      · rw [if_neg he0, show 0 + L - tail = L - tail by omega,
          Nat.mod_eq_of_lt (show L - tail < L by omega),
          Nat.mod_eq_sub_mod (show L ≤ head + L - tail by omega),
          Nat.mod_eq_of_lt (show head + L - tail - L < L by omega)]
        omega

lemma pop_count_arith (head tail L : Nat) (hh : head < L) (ht : tail < L)
    (hL : 2 ≤ L) :
    (if head = (tail + 1) % L then 0
     else (head + L - (tail + 1) % L) % L) + 1 =
    (if head = tail then L else (head + L - tail) % L) := by
  by_cases hw : tail + 1 < L
  · rw [Nat.mod_eq_of_lt hw]
    by_cases hft : head = tail + 1
    · rw [if_pos hft, if_neg (show ¬head = tail by omega),
        show head + L - tail = L + 1 by omega,
        Nat.mod_eq_sub_mod (show L ≤ L + 1 by omega),
        Nat.mod_eq_of_lt (show L + 1 - L < L by omega)]
      omega
    · rw [if_neg hft]
      by_cases he0 : head = tail
      · rw [if_pos he0, show head + L - (tail + 1) = L - 1 by omega,
          Nat.mod_eq_of_lt (show L - 1 < L by omega)]
        omega
      · rw [if_neg he0]
        by_cases hbig : tail + 1 ≤ head
        · rw [Nat.mod_eq_sub_mod (show L ≤ head + L - (tail + 1) by omega),
            Nat.mod_eq_of_lt (show head + L - (tail + 1) - L < L by omega),
            Nat.mod_eq_sub_mod (show L ≤ head + L - tail by omega),
            Nat.mod_eq_of_lt (show head + L - tail - L < L by omega)]
          omega
        · rw [Nat.mod_eq_of_lt (show head + L - (tail + 1) < L by omega),
            Nat.mod_eq_of_lt (show head + L - tail < L by omega)]
          omega
  · have e1 : (tail + 1) % L = 0 := by
      rw [show tail + 1 = L from by omega]
      exact Nat.mod_self L
    rw [e1]
    by_cases hft : head = 0
    · rw [if_pos hft, if_neg (show ¬head = tail by omega),
        show head + L - tail = 1 by omega,
        Nat.mod_eq_of_lt (show 1 < L by omega)]
    · rw [if_neg hft]
      by_cases he0 : head = tail
      · rw [if_pos he0, show head + L - 0 = head + L by omega,
          Nat.add_mod_right, Nat.mod_eq_of_lt hh]
        omega
      · rw [if_neg he0, show head + L - 0 = head + L by omega,
          Nat.add_mod_right, Nat.mod_eq_of_lt hh,
          Nat.mod_eq_of_lt (show head + L - tail < L by omega)]
        omega

/-!
Flag/count lemmas and the central specifications of a single successful
push and pop in terms of the `elems` abstraction.
-/

lemma rb_count_of_empty (h : ring_buffer_t) (he : h.is_empty = true) :
    rb_count h = 0 := by
  simp [rb_count, he]

lemma elems_of_empty (h : ring_buffer_t) (he : h.is_empty = true) :
    elems h = [] := by
  simp [elems, rb_count_of_empty h he]

lemma elems_length (h : ring_buffer_t) : (elems h).length = rb_count h := by
  simp [elems]

lemma count_le_length (h : ring_buffer_t) (hI : RBInv h) :
    rb_count h ≤ h.length := by
  obtain ⟨-, hL2, -, -, hhd, htl, -, -⟩ := hI
  unfold rb_count
  split_ifs
  · omega
  · omega
  · exact Nat.le_of_lt (Nat.mod_lt _ (by omega))

lemma not_full_of_count_lt (h : ring_buffer_t) (hI : RBInv h)
    (hc : rb_count h < h.length) : h.is_full = false := by
  obtain ⟨-, hL2, -, -, -, -, -, hnand⟩ := hI
  cases hf : h.is_full
  · rfl
  · cases hemp : h.is_empty
    · rw [rb_count, hemp, hf] at hc
      simp at hc
    · exact absurd ⟨hemp, hf⟩ hnand

lemma is_full_of_count_eq (h : ring_buffer_t) (hI : RBInv h)
    (hc : rb_count h = h.length) : h.is_full = true := by
  obtain ⟨-, hL2, -, -, hhd, htl, hiff, -⟩ := hI
  cases hf : h.is_full
  · exfalso
    rw [rb_count] at hc
    split_ifs at hc with h1 h2
    · omega
    · rw [hf] at h2; simp at h2
    · have := Nat.mod_lt (h.head + h.length - h.tail) (show 0 < h.length by omega)
      omega
  · rfl

lemma is_empty_of_count_zero (h : ring_buffer_t) (hI : RBInv h)
    (hc : rb_count h = 0) : h.is_empty = true := by
  obtain ⟨-, hL2, -, -, hhd, htl, hiff, -⟩ := hI
  cases hemp : h.is_empty
  · exfalso
    rw [rb_count, hemp] at hc
    simp only [Bool.false_eq_true, if_false] at hc
    split_ifs at hc with h1
    · omega
    · have hne : h.head ≠ h.tail := by
        intro heq
        rcases hiff.mp heq with he | hf
        · rw [hemp] at he; simp at he
        · exact h1 hf
      by_cases hcmp : h.tail ≤ h.head
      · rw [Nat.mod_eq_sub_mod (show h.length ≤ h.head + h.length - h.tail by omega),
          Nat.mod_eq_of_lt (show h.head + h.length - h.tail - h.length < h.length by omega)] at hc
        omega
      · rw [Nat.mod_eq_of_lt (show h.head + h.length - h.tail < h.length by omega)] at hc
        omega
  · rfl

lemma not_empty_of_count_pos (h : ring_buffer_t) (hc : 0 < rb_count h) :
    h.is_empty = false := by
  cases hemp : h.is_empty
  · rfl
  · rw [rb_count_of_empty h hemp] at hc
    omega

lemma push_spec (h : ring_buffer_t) (e : List Nat) (hI : RBInv h)
    (hB : WFb h) (hnf : h.is_full = false) (he : e.length = h.element_size) :
    ∃ h', ring_buffer_push (some h) (some e) = (RING_BUFFER_OK, some h') ∧
      h'.buffer = memcpy_write h.buffer (h.head * h.element_size) e
        h.element_size ∧
      h'.length = h.length ∧ h'.element_size = h.element_size ∧
      h'.tail = h.tail ∧ h'.init_flag = h.init_flag ∧
      h'.head = (h.head + 1) % h.length ∧ h'.is_empty = false ∧
      (h'.is_full = true ↔ (h.head + 1) % h.length = h.tail) ∧
      RBInv h' ∧ WFb h' ∧ rb_count h' = rb_count h + 1 ∧
      elems h' = elems h ++ [e] := by
  obtain ⟨hflag, hL2, hL32, hes1, hhd, htl, hiff, hnand⟩ := hI
  obtain ⟨hblen, hb32⟩ := hB
  have hL0 : 0 < h.length := by omega
  have hmul1 : h.head * h.element_size + h.element_size =
      (h.head + 1) * h.element_size := by ring
  have hmul2 : (h.head + 1) * h.element_size ≤ h.length * h.element_size :=
    mul_le_mul_right' (by omega) _
  have hoffb : h.head * h.element_size + h.element_size ≤ h.buffer.length := by
    omega
  have hoff : (h.head * h.element_size) % UINT32_MOD =
      h.head * h.element_size := Nat.mod_eq_of_lt (by omega)
  have hnext : ring_buffer_next_index h.head h.length =
      (h.head + 1) % h.length := by
    unfold ring_buffer_next_index
    rw [Nat.mod_eq_of_lt (show h.head + 1 < UINT32_MOD by omega)]
  set h' : ring_buffer_t :=
    { h with
      buffer := memcpy_write h.buffer (h.head * h.element_size) e
        h.element_size
      head := (h.head + 1) % h.length
      is_full := if (h.head + 1) % h.length = h.tail then true else h.is_full
      is_empty := false } with hh'
  have hpush : ring_buffer_push (some h) (some e) =
      (RING_BUFFER_OK, some h') := by
    rw [hh']
    simp only [ring_buffer_push, hoff, hnext]
    rw [if_neg (show ¬h.init_flag ≠ RING_BUFFER_INITIALIZE_MASK by
        simp [hflag]),
      if_neg (show ¬h.is_full = true by simp [hnf])]
  have hRBh : rb_count h =
      if h.head = h.tail then 0
      else (h.head + h.length - h.tail) % h.length := by
    unfold rb_count
    by_cases hemp : h.is_empty = true
    · rw [if_pos hemp, if_pos (hiff.mpr (Or.inl hemp))]
    · have hemp' : h.is_empty = false := by
        revert hemp; cases h.is_empty <;> simp
      have hne : ¬h.head = h.tail := by
        intro heq
        rcases hiff.mp heq with ha | hb
        · rw [hemp'] at ha; simp at ha
        · rw [hnf] at hb; simp at hb
      rw [if_neg hemp, if_neg (by rw [hnf]; simp), if_neg hne]
  have hRBh' : rb_count h' =
      if (h.head + 1) % h.length = h.tail then h.length
      else ((h.head + 1) % h.length + h.length - h.tail) % h.length := by
    rw [hh']
    unfold rb_count
    simp only [hnf]
    by_cases hc : (h.head + 1) % h.length = h.tail <;> simp [hc]
  have hcnt : rb_count h' = rb_count h + 1 := by
    rw [hRBh, hRBh', push_count_arith h.head h.tail h.length hhd htl hL2]
  have hslot_frame : ∀ j, j < h.length → j ≠ h.head →
      slot h' j = slot h j := by
    intro j hj hjne
    show memcpy_read
        (memcpy_write h.buffer (h.head * h.element_size) e h.element_size)
        (j * h.element_size) h.element_size =
      memcpy_read h.buffer (j * h.element_size) h.element_size
    rcases Nat.lt_or_ge j h.head with hlt | hge
    · apply memcpy_read_write_left
      · have hj2 : (j + 1) * h.element_size ≤ h.head * h.element_size :=
          mul_le_mul_right' (by omega) _
        have hj1 : j * h.element_size + h.element_size =
            (j + 1) * h.element_size := by ring
        omega
      · omega
    · have hgt : h.head < j := by omega
      apply memcpy_read_write_right
      · have hj2 : (h.head + 1) * h.element_size ≤ j * h.element_size :=
          mul_le_mul_right' (by omega) _
        omega
      · exact hoffb
      · omega
  have hslot_head : slot h' h.head = e := by
    show memcpy_read
        (memcpy_write h.buffer (h.head * h.element_size) e h.element_size)
        (h.head * h.element_size) h.element_size = e
    exact memcpy_read_write_self _ _ _ _ hoffb he
  have helems : elems h' = elems h ++ [e] := by
    unfold elems
    rw [hcnt]
    have htl' : h'.tail = h.tail := rfl
    have hln' : h'.length = h.length := rfl
    rw [htl', hln', List.range_succ, List.map_append]
    congr 1
    · refine List.map_congr_left ?_
      intro i hi
      rw [List.mem_range] at hi
      apply hslot_frame
      · exact Nat.mod_lt _ hL0
      · by_cases hemp : h.is_empty = true
        · rw [rb_count_of_empty h hemp] at hi
          omega
        · have hemp' : h.is_empty = false := by
            revert hemp; cases h.is_empty <;> simp
          have hne : ¬h.head = h.tail := by
            intro heq
            rcases hiff.mp heq with ha | hb
            · rw [hemp'] at ha; simp at ha
            · rw [hnf] at hb; simp at hb
          rw [hRBh, if_neg hne] at hi
          exact index_ne_head h.head h.tail h.length i hhd htl hne hi
    · simp only [List.map_cons, List.map_nil]
      have hidx : (h.tail + rb_count h) % h.length = h.head := by
        by_cases hemp : h.is_empty = true
        · rw [rb_count_of_empty h hemp, Nat.add_zero,
            Nat.mod_eq_of_lt htl, (hiff.mpr (Or.inl hemp))]
        · have hemp' : h.is_empty = false := by
            revert hemp; cases h.is_empty <;> simp
          have hne : ¬h.head = h.tail := by
            intro heq
            rcases hiff.mp heq with ha | hb
            · rw [hemp'] at ha; simp at ha
            · rw [hnf] at hb; simp at hb
          rw [hRBh, if_neg hne]
          exact index_count_eq_head h.head h.tail h.length hhd htl hne
      rw [hidx, hslot_head]
  refine ⟨h', hpush, rfl, rfl, rfl, rfl, rfl, rfl, rfl, ?_, ?_, ?_, hcnt,
    helems⟩
  · show (if (h.head + 1) % h.length = h.tail then true else h.is_full) =
      true ↔ (h.head + 1) % h.length = h.tail
    by_cases hc : (h.head + 1) % h.length = h.tail <;> simp [hc, hnf]
  · refine ⟨hflag, hL2, hL32, hes1, Nat.mod_lt _ hL0, htl, ?_, ?_⟩
    · show (h.head + 1) % h.length = h.tail ↔
        (false = true ∨
          (if (h.head + 1) % h.length = h.tail then true else h.is_full) =
            true)
      by_cases hc : (h.head + 1) % h.length = h.tail <;> simp [hc, hnf]
    · show ¬((false = true) ∧
        (if (h.head + 1) % h.length = h.tail then true else h.is_full) =
          true)
      simp
  · refine ⟨?_, hb32⟩
    show (memcpy_write h.buffer (h.head * h.element_size) e
        h.element_size).length = h.length * h.element_size
    rw [length_memcpy_write _ _ _ _ hoffb (by omega), hblen]

lemma pop_spec (h : ring_buffer_t) (hI : RBInv h) (hB : WFb h)
    (hnem : h.is_empty = false) :
    ∃ h' out,
      ring_buffer_pop (some h) (some ()) = (RING_BUFFER_OK, some h', out) ∧
      out = memcpy_read h.buffer (h.tail * h.element_size) h.element_size ∧
      h'.buffer = h.buffer ∧ h'.length = h.length ∧
      h'.element_size = h.element_size ∧ h'.head = h.head ∧
      h'.init_flag = h.init_flag ∧ h'.tail = (h.tail + 1) % h.length ∧
      h'.is_full = false ∧
      (h'.is_empty = true ↔ h.head = (h.tail + 1) % h.length) ∧
      RBInv h' ∧ WFb h' ∧ rb_count h = rb_count h' + 1 ∧
      elems h = out :: elems h' := by
  obtain ⟨hflag, hL2, hL32, hes1, hhd, htl, hiff, hnand⟩ := hI
  obtain ⟨hblen, hb32⟩ := hB
  have hL0 : 0 < h.length := by omega
  have hmul1 : h.tail * h.element_size + h.element_size =
      (h.tail + 1) * h.element_size := by ring
  have hmul2 : (h.tail + 1) * h.element_size ≤ h.length * h.element_size :=
    mul_le_mul_right' (by omega) _
  have hoff : (h.tail * h.element_size) % UINT32_MOD =
      h.tail * h.element_size := Nat.mod_eq_of_lt (by omega)
  have hnext : ring_buffer_next_index h.tail h.length =
      (h.tail + 1) % h.length := by
    unfold ring_buffer_next_index
    rw [Nat.mod_eq_of_lt (show h.tail + 1 < UINT32_MOD by omega)]
  set h' : ring_buffer_t :=
    { h with
      tail := (h.tail + 1) % h.length
      is_empty := if h.head = (h.tail + 1) % h.length then true
        else h.is_empty
      is_full := false } with hh'
  set out : List Nat :=
    memcpy_read h.buffer (h.tail * h.element_size) h.element_size with hout
  have hpop : ring_buffer_pop (some h) (some ()) =
      (RING_BUFFER_OK, some h', out) := by
    rw [hh', hout]
    simp only [ring_buffer_pop, hoff, hnext]
    rw [if_neg (show ¬h.init_flag ≠ RING_BUFFER_INITIALIZE_MASK by
        simp [hflag]),
      if_neg (show ¬h.is_empty = true by simp [hnem])]
  have hRBh : rb_count h =
      if h.head = h.tail then h.length
      else (h.head + h.length - h.tail) % h.length := by
    unfold rb_count
    rw [if_neg (by rw [hnem]; simp)]
    by_cases hf : h.is_full = true
    · rw [if_pos hf, if_pos (hiff.mpr (Or.inr hf))]
    · have hf' : h.is_full = false := by
        revert hf; cases h.is_full <;> simp
      have hne : ¬h.head = h.tail := by
        intro heq
        rcases hiff.mp heq with ha | hb
        · rw [hnem] at ha; simp at ha
        · rw [hf'] at hb; simp at hb
      rw [if_neg hf, if_neg hne]
  have hRBh' : rb_count h' =
      if h.head = (h.tail + 1) % h.length then 0
      else (h.head + h.length - (h.tail + 1) % h.length) % h.length := by
    rw [hh']
    unfold rb_count
    by_cases hc : h.head = (h.tail + 1) % h.length <;> simp [hc, hnem]
  have hcnt : rb_count h = rb_count h' + 1 := by
    rw [hRBh, hRBh', pop_count_arith h.head h.tail h.length hhd htl hL2]
  have hslot : ∀ j, slot h' j = slot h j := by
    intro j
    rfl
  have helems : elems h = out :: elems h' := by
    unfold elems
    rw [hcnt]
    have htl' : h'.tail = (h.tail + 1) % h.length := rfl
    have hln' : h'.length = h.length := rfl
    rw [htl', hln', List.range_succ_eq_map, List.map_cons, List.map_map]
    congr 1
    · show slot h ((h.tail + 0) % h.length) = out
      rw [Nat.add_zero, Nat.mod_eq_of_lt htl]
      rfl
    · refine List.map_congr_left ?_
      intro i hi
      show slot h ((h.tail + (i + 1)) % h.length) =
        slot h' (((h.tail + 1) % h.length + i) % h.length)
      rw [hslot]
      congr 1
      rw [Nat.mod_add_mod]
      congr 1
      omega
  refine ⟨h', out, hpop, rfl, rfl, rfl, rfl, rfl, rfl, rfl, rfl, ?_, ?_,
    ⟨hblen, hb32⟩, hcnt, helems⟩
  · show (if h.head = (h.tail + 1) % h.length then true else h.is_empty) =
      true ↔ h.head = (h.tail + 1) % h.length
    by_cases hc : h.head = (h.tail + 1) % h.length <;> simp [hc, hnem]
  · refine ⟨hflag, hL2, hL32, hes1, hhd, Nat.mod_lt _ hL0, ?_, ?_⟩
    · show h.head = (h.tail + 1) % h.length ↔
        ((if h.head = (h.tail + 1) % h.length then true else h.is_empty) =
          true ∨ false = true)
      by_cases hc : h.head = (h.tail + 1) % h.length <;> simp [hc, hnem]
    · show ¬((if h.head = (h.tail + 1) % h.length then true
          else h.is_empty) = true ∧ false = true)
      simp

lemma pushSeq_spec (es : List (List Nat)) :
    ∀ h : ring_buffer_t, RBInv h → WFb h →
    (∀ e ∈ es, e.length = h.element_size) →
    rb_count h + es.length ≤ h.length →
    ∃ h', pushSeq h es = some h' ∧ RBInv h' ∧ WFb h' ∧
      h'.element_size = h.element_size ∧ h'.length = h.length ∧
      rb_count h' = rb_count h + es.length ∧
      elems h' = elems h ++ es := by
  induction es with
  | nil =>
    intro h hI hB _ _
    exact ⟨h, rfl, hI, hB, rfl, rfl, by simp, by simp⟩
  | cons e rest ih =>
    intro h hI hB hsz hlen
    simp only [List.length_cons] at hlen
    have hnf : h.is_full = false := by
      apply not_full_of_count_lt h hI
      omega
    obtain ⟨h1, hpush, hbuf1, hL1, hes1, htl1, hfl1, hhd1, hie1, hifull1,
      hI1, hB1, hcnt1, helems1⟩ :=
      push_spec h e hI hB hnf (hsz e (by simp))
    obtain ⟨h', hseq, hI', hB', hes', hL', hcnt', helems'⟩ :=
      ih h1 hI1 hB1
        (by intro x hx; rw [hes1]; exact hsz x (by simp [hx]))
        (by rw [hcnt1, hL1]; omega)
    refine ⟨h', ?_, hI', hB', hes'.trans hes1, hL'.trans hL1, ?_, ?_⟩
    · simp only [pushSeq, hpush]
      exact hseq
    · rw [hcnt', hcnt1, List.length_cons]
      omega
    · rw [helems', helems1, List.append_assoc, List.singleton_append]

lemma popSeq_spec (n : Nat) :
    ∀ h : ring_buffer_t, RBInv h → WFb h → n ≤ rb_count h →
    ∃ h', popSeq h n = some ((elems h).take n, h') ∧ RBInv h' ∧ WFb h' := by
  induction n with
  | zero =>
    intro h hI hB _
    exact ⟨h, by simp [popSeq], hI, hB⟩
  | succ n ih =>
    intro h hI hB hn
    have hnem : h.is_empty = false :=
      not_empty_of_count_pos h (by rw [rb_count] at *; omega)
    obtain ⟨h1, out, hpop, hout1, hbuf1, hL1, hes1, hhd1, hfl1, htl1,
      hful1, hiemp1, hI1, hB1, hcnt1, helems1⟩ := pop_spec h hI hB hnem
    obtain ⟨h', hseq, hI', hB'⟩ := ih h1 hI1 hB1 (by omega)
    refine ⟨h', ?_, hI', hB'⟩
    simp only [popSeq, hpop, hseq]
    rw [helems1, List.take_succ_cons]

lemma reachable_inv (h : ring_buffer_t) (hr : Reachable h) : RBInv h := by
  induction hr with
  | init h0 es len buf h hlen heq =>
    simp only [ring_buffer_init] at heq
    by_cases h1 : h0.init_flag = RING_BUFFER_INITIALIZE_MASK
    · rw [if_pos h1] at heq
      exact absurd (congrArg Prod.fst heq) (by simp)
    · rw [if_neg h1] at heq
      by_cases h2 : es = 0 ∨ len < 2
      · rw [if_pos h2] at heq
        exact absurd (congrArg Prod.fst heq) (by simp)
      · rw [if_neg h2] at heq
        have hs := Option.some.inj (congrArg Prod.snd heq)
        subst hs
        push_neg at h2
        unfold RBInv
        exact ⟨rfl, show 2 ≤ len by omega, hlen, show 1 ≤ es by omega,
          show (0 : Nat) < len by omega, show (0 : Nat) < len by omega,
          by simp, by simp⟩
  | push h h' e st hr heq ih =>
    simp only [ring_buffer_push] at heq
    by_cases h1 : h.init_flag ≠ RING_BUFFER_INITIALIZE_MASK
    · rw [if_pos h1] at heq
      have hs := Option.some.inj (congrArg Prod.snd heq)
      rw [← hs]
      exact ih
    · rw [if_neg h1] at heq
      by_cases h2 : h.is_full = true
      · rw [if_pos h2] at heq
        have hs := Option.some.inj (congrArg Prod.snd heq)
        rw [← hs]
        exact ih
      · rw [if_neg h2] at heq
        have hs := Option.some.inj (congrArg Prod.snd heq)
        subst hs
        obtain ⟨hflag, hL2, hL32, hes1, hhd, htl, hiff, hnand⟩ := ih
        have hf' : h.is_full = false := by
          revert h2; cases h.is_full <;> simp
        have hnext : ring_buffer_next_index h.head h.length =
            (h.head + 1) % h.length := by
          unfold ring_buffer_next_index
          rw [Nat.mod_eq_of_lt (show h.head + 1 < UINT32_MOD by omega)]
        unfold RBInv
        refine ⟨hflag, hL2, hL32, hes1, ?_, htl, ?_, ?_⟩
        · show ring_buffer_next_index h.head h.length < h.length
          rw [hnext]
          exact Nat.mod_lt _ (by omega)
        · show ring_buffer_next_index h.head h.length = h.tail ↔
            (false = true ∨
              (if ring_buffer_next_index h.head h.length = h.tail then true
                else h.is_full) = true)
          rw [hnext]
          by_cases hc : (h.head + 1) % h.length = h.tail <;> simp [hc, hf']
        · show ¬(false = true ∧
            (if ring_buffer_next_index h.head h.length = h.tail then true
              else h.is_full) = true)
          simp
  | pop h h' st out hr heq ih =>
    simp only [ring_buffer_pop] at heq
    by_cases h1 : h.init_flag ≠ RING_BUFFER_INITIALIZE_MASK
    · rw [if_pos h1] at heq
      have hs := Option.some.inj (congrArg Prod.fst (congrArg Prod.snd heq))
      rw [← hs]
      exact ih
    · rw [if_neg h1] at heq
      by_cases h2 : h.is_empty = true
      · rw [if_pos h2] at heq
        have hs := Option.some.inj (congrArg Prod.fst (congrArg Prod.snd heq))
        rw [← hs]
        exact ih
      · rw [if_neg h2] at heq
        have hs := Option.some.inj (congrArg Prod.fst (congrArg Prod.snd heq))
        subst hs
        obtain ⟨hflag, hL2, hL32, hes1, hhd, htl, hiff, hnand⟩ := ih
        have hnem : h.is_empty = false := by
          revert h2; cases h.is_empty <;> simp
        have hnext : ring_buffer_next_index h.tail h.length =
            (h.tail + 1) % h.length := by
          unfold ring_buffer_next_index
          rw [Nat.mod_eq_of_lt (show h.tail + 1 < UINT32_MOD by omega)]
        unfold RBInv
        refine ⟨hflag, hL2, hL32, hes1, hhd, ?_, ?_, ?_⟩
        · show ring_buffer_next_index h.tail h.length < h.length
          rw [hnext]
          exact Nat.mod_lt _ (by omega)
        · show h.head = ring_buffer_next_index h.tail h.length ↔
            ((if h.head = ring_buffer_next_index h.tail h.length then true
              else h.is_empty) = true ∨ false = true)
          rw [hnext]
          by_cases hc : h.head = (h.tail + 1) % h.length <;> simp [hc, hnem]
        · show ¬((if h.head = ring_buffer_next_index h.tail h.length then true
            else h.is_empty) = true ∧ false = true)
          simp
  | clear h h' st hr heq ih =>
    simp only [ring_buffer_clear] at heq
    by_cases h1 : h.init_flag ≠ RING_BUFFER_INITIALIZE_MASK
    · rw [if_pos h1] at heq
      have hs := Option.some.inj (congrArg Prod.snd heq)
      rw [← hs]
      exact ih
    · rw [if_neg h1] at heq
      have hs := Option.some.inj (congrArg Prod.snd heq)
      subst hs
      obtain ⟨hflag, hL2, hL32, hes1, hhd, htl, hiff, hnand⟩ := ih
      unfold RBInv
      exact ⟨hflag, hL2, hL32, hes1, show (0 : Nat) < h.length by omega,
        show (0 : Nat) < h.length by omega, by simp, by simp⟩

/-!
Concrete states used by witnesses: a fresh uninitialized handle, the state
right after a capacity-2 one-byte-element initialization, and that state
after one successful push.
-/

/-- Handle with all-zero fields: a fresh, uninitialized handle. -/
def hU : ring_buffer_t :=
  { buffer := [], length := 0, element_size := 0, head := 0, tail := 0,
    init_flag := 0, is_full := false, is_empty := false, is_dynamic := false }

/-- Buffer state produced by a successful capacity-2, one-byte-element
initialization over storage `[0, 0]`. -/
def hW : ring_buffer_t :=
  { buffer := [0, 0], length := 2, element_size := 1, head := 0, tail := 0,
    init_flag := RING_BUFFER_INITIALIZE_MASK, is_full := false,
    is_empty := true, is_dynamic := false }

/-- State of `hW` after one successful push of the byte `1`. -/
def hOne : ring_buffer_t :=
  { buffer := [1, 0], length := 2, element_size := 1, head := 1, tail := 0,
    init_flag := RING_BUFFER_INITIALIZE_MASK, is_full := false,
    is_empty := false, is_dynamic := false }

/-!
Claim theorems.
-/

/-- C1: every buffer state reachable from a successful `ring_buffer_init`
by any sequence of `ring_buffer_push`, `ring_buffer_pop` and
`ring_buffer_clear` calls keeps `0 ≤ head < capacity` and
`0 ≤ tail < capacity`, has `head = tail` exactly when one of
`is_empty`/`is_full` is set (never both, never neither), and has neither
flag set whenever `head ≠ tail`. -/
theorem reachable_invariant_holds (h : ring_buffer_t) (hr : Reachable h) :
    h.head < h.length ∧ h.tail < h.length ∧
    (h.head = h.tail ↔ (h.is_empty = true ∨ h.is_full = true)) ∧
    ¬(h.is_empty = true ∧ h.is_full = true) ∧
    (h.head ≠ h.tail → h.is_empty = false ∧ h.is_full = false) := by
  obtain ⟨hflag, hL2, hL32, hes1, hhd, htl, hiff, hnand⟩ := reachable_inv h hr
  refine ⟨hhd, htl, hiff, hnand, ?_⟩
  intro hne
  constructor
  · cases he : h.is_empty
    · rfl
    · exact absurd (hiff.mpr (Or.inl he)) hne
  · cases hf : h.is_full
    · rfl
    · exact absurd (hiff.mpr (Or.inr hf)) hne

theorem reachable_invariant_holds_witness :
    hW.head < hW.length ∧ hW.tail < hW.length ∧
    (hW.head = hW.tail ↔ (hW.is_empty = true ∨ hW.is_full = true)) ∧
    ¬(hW.is_empty = true ∧ hW.is_full = true) ∧
    (hW.head ≠ hW.tail → hW.is_empty = false ∧ hW.is_full = false) :=
  reachable_invariant_holds hW
    (Reachable.init hU 1 2 [0, 0] hW (by decide) (by decide))

/-- C2: from an initialized, empty buffer, pushing `n ≤ capacity` elements
of `element_size` bytes each (with no pops in between) succeeds, and `n`
subsequent pops succeed and return exactly those elements, byte for byte,
in push order. -/
theorem fifo_order_preserved (h : ring_buffer_t) (es : List (List Nat))
    (hI : RBInv h) (hB : WFb h) (hemp : h.is_empty = true)
    (hsz : ∀ e ∈ es, e.length = h.element_size)
    (hn : es.length ≤ h.length) :
    ∃ h', pushSeq h es = some h' ∧
      ∃ h'', popSeq h' es.length = some (es, h'') := by
  obtain ⟨h', hseq, hI', hB', hes', hL', hcnt', helems'⟩ :=
    pushSeq_spec es h hI hB hsz
      (by rw [rb_count_of_empty h hemp]; omega)
  obtain ⟨h'', hpops, -, -⟩ :=
    popSeq_spec es.length h' hI' hB'
      (by rw [hcnt', rb_count_of_empty h hemp]; omega)
  refine ⟨h', hseq, h'', ?_⟩
  rw [hpops, helems', elems_of_empty h hemp, List.nil_append,
    List.take_length]

theorem fifo_order_preserved_witness :
    ∃ h', pushSeq hW [[3], [4]] = some h' ∧
      ∃ h'', popSeq h' 2 = some ([[3], [4]], h'') :=
  fifo_order_preserved hW [[3], [4]] (by decide) (by decide) rfl (by decide)
    (by decide)

/-- C3 (amended): on an initialized, EMPTY buffer, a `ring_buffer_push` of
an `element_size`-byte element followed immediately by a `ring_buffer_pop`
returns exactly the pushed bytes, and afterwards `ring_buffer_state`
returns `Empty`.  (The emptiness premise is required: on a non-empty buffer
the pop returns the oldest element, not the pushed one — see the
counterexample.) -/
theorem push_pop_roundtrip_from_empty (h : ring_buffer_t) (e : List Nat)
    (hI : RBInv h) (hB : WFb h) (hemp : h.is_empty = true)
    (he : e.length = h.element_size) :
    ∃ h', ring_buffer_push (some h) (some e) = (RING_BUFFER_OK, some h') ∧
      ∃ h'', ring_buffer_pop (some h') (some ()) =
          (RING_BUFFER_OK, some h'', e) ∧
        ring_buffer_state (some h'') = RING_BUFFER_EMPTY := by
  have hnf : h.is_full = false := by
    obtain ⟨-, -, -, -, -, -, -, hnand⟩ := hI
    cases hf : h.is_full
    · rfl
    · exact absurd ⟨hemp, hf⟩ hnand
  obtain ⟨h', hpush, hbuf1, hL1, hes1, htl1, hfl1, hhd1, hie1, hifull1,
    hI1, hB1, hcnt1, helems1⟩ := push_spec h e hI hB hnf he
  obtain ⟨h'', out, hpop, hout, hbuf2, hL2', hes2, hhd2, hfl2, htl2,
    hful2, hiemp2, hI2, hB2, hcnt2, helems2⟩ := pop_spec h' hI1 hB1 hie1
  have he0 : elems h' = [e] := by
    rw [helems1, elems_of_empty h hemp, List.nil_append]
  have h1 : ([e] : List (List Nat)) = out :: elems h'' := by
    rw [← he0]; exact helems2
  obtain ⟨hoe, hni⟩ := List.cons.inj h1
  have hc0 : rb_count h'' = 0 := by
    rw [← elems_length, ← hni]
    rfl
  have hemp2 : h''.is_empty = true := is_empty_of_count_zero h'' hI2 hc0
  obtain ⟨hflag2, -, -, -, -, -, -, -⟩ := hI2
  refine ⟨h', hpush, h'', ?_, ?_⟩
  · rw [hpop, hoe]
  · simp only [ring_buffer_state]
    rw [if_neg (by simp [hflag2]), if_pos hemp2]

theorem push_pop_roundtrip_from_empty_witness :
    ∃ h', ring_buffer_push (some hW) (some [7]) =
        (RING_BUFFER_OK, some h') ∧
      ∃ h'', ring_buffer_pop (some h') (some ()) =
          (RING_BUFFER_OK, some h'', [7]) ∧
        ring_buffer_state (some h'') = RING_BUFFER_EMPTY :=
  push_pop_roundtrip_from_empty hW [7] (by decide) (by decide) rfl
    (by decide)

/-- C3 counterexample: `hOne` is an initialized buffer (reached from the
freshly initialized `hW` by one successful push of the byte `1`).  Pushing
the byte `2` onto it and then popping returns the byte `1` — not the pushed
bytes — and afterwards `ring_buffer_state` returns `Ok`, not `Empty`. -/
theorem push_pop_roundtrip_cex :
    ring_buffer_push (some hW) (some [1]) = (RING_BUFFER_OK, some hOne) ∧
    (ring_buffer_push (some hOne) (some [2])).1 = RING_BUFFER_OK ∧
    (ring_buffer_pop (ring_buffer_push (some hOne) (some [2])).2
      (some ())).2.2 ≠ [2] ∧
    ring_buffer_state
      (ring_buffer_pop (ring_buffer_push (some hOne) (some [2])).2
        (some ())).2.1 ≠ RING_BUFFER_EMPTY := by
  decide

/-- C4: from an initialized empty buffer, exactly `capacity` successful
pushes (no interleaved pops) make `ring_buffer_state` report `Full`, and
the next push of any element returns `Full` with the buffer state — storage
bytes, `head`, `tail`, `is_full`, `is_empty` — completely unchanged. -/
theorem full_buffer_rejects_push (h : ring_buffer_t) (es : List (List Nat))
    (hI : RBInv h) (hB : WFb h) (hemp : h.is_empty = true)
    (hsz : ∀ e ∈ es, e.length = h.element_size)
    (hn : es.length = h.length) :
    ∃ h', pushSeq h es = some h' ∧
      ring_buffer_state (some h') = RING_BUFFER_FULL ∧
      ∀ e : List Nat, ring_buffer_push (some h') (some e) =
        (RING_BUFFER_FULL, some h') := by
  obtain ⟨h', hseq, hI', hB', hes', hL', hcnt', helems'⟩ :=
    pushSeq_spec es h hI hB hsz
      (by rw [rb_count_of_empty h hemp]; omega)
  have hcnt : rb_count h' = h'.length := by
    rw [hcnt', rb_count_of_empty h hemp, hn, hL']
    omega
  have hfull : h'.is_full = true := is_full_of_count_eq h' hI' hcnt
  have hnem : h'.is_empty = false := by
    obtain ⟨-, -, -, -, -, -, -, hnand⟩ := hI'
    cases he : h'.is_empty
    · rfl
    · exact absurd ⟨he, hfull⟩ hnand
  obtain ⟨hflag', -, -, -, -, -, -, -⟩ := hI'
  refine ⟨h', hseq, ?_, ?_⟩
  · simp only [ring_buffer_state]
    rw [if_neg (by simp [hflag']), if_neg (by simp [hnem]), if_pos hfull]
  · intro e
    simp only [ring_buffer_push]
    rw [if_neg (by simp [hflag']), if_pos hfull]

theorem full_buffer_rejects_push_witness :
    ∃ h', pushSeq hW [[5], [6]] = some h' ∧
      ring_buffer_state (some h') = RING_BUFFER_FULL ∧
      ∀ e : List Nat, ring_buffer_push (some h') (some e) =
        (RING_BUFFER_FULL, some h') :=
  full_buffer_rejects_push hW [[5], [6]] (by decide) (by decide) rfl
    (by decide) (by decide)

/-- C5: on an initialized, non-full buffer with a non-null element
reference of `element_size` bytes, `ring_buffer_push` returns `Ok`, writes
exactly the element bytes at byte offset `head * element_size`, advances
`head` to `(head + 1) mod capacity`, sets `is_full` exactly when the new
head equals `tail`, clears `is_empty`, keeps `tail`, and changes no other
storage slot. -/
theorem push_correct (h : ring_buffer_t) (e : List Nat)
    (hI : RBInv h) (hB : WFb h) (hnf : h.is_full = false)
    (he : e.length = h.element_size) :
    ∃ h', ring_buffer_push (some h) (some e) = (RING_BUFFER_OK, some h') ∧
      memcpy_read h'.buffer (h.head * h.element_size) h.element_size = e ∧
      h'.head = (h.head + 1) % h.length ∧ h'.tail = h.tail ∧
      (h'.is_full = true ↔ h'.head = h.tail) ∧ h'.is_empty = false ∧
      (∀ j, j < h.length → j ≠ h.head → slot h' j = slot h j) := by
  obtain ⟨hflag, hL2, hL32, hes0, hhd, htl, hiff, hnand⟩ := hI
  obtain ⟨hblen, hb32⟩ := hB
  have hmul1 : h.head * h.element_size + h.element_size =
      (h.head + 1) * h.element_size := by ring
  have hmul2 : (h.head + 1) * h.element_size ≤ h.length * h.element_size :=
    mul_le_mul_right' (by omega) _
  have hoffb : h.head * h.element_size + h.element_size ≤ h.buffer.length := by
    omega
  obtain ⟨h', hpush, hbuf1, hL1, hes1, htl1, hfl1, hhd1, hie1, hifull1,
    hI1, hB1, hcnt1, helems1⟩ :=
    push_spec h e ⟨hflag, hL2, hL32, hes0, hhd, htl, hiff, hnand⟩
      ⟨hblen, hb32⟩ hnf he
  refine ⟨h', hpush, ?_, hhd1, htl1, ?_, hie1, ?_⟩
  · rw [hbuf1]
    exact memcpy_read_write_self _ _ _ _ hoffb he
  · rw [hhd1]
    exact hifull1
  · intro j hj hjne
    unfold slot
    rw [hes1, hbuf1]
    rcases Nat.lt_or_ge j h.head with hlt | hge
    · apply memcpy_read_write_left
      · have hj2 : (j + 1) * h.element_size ≤ h.head * h.element_size :=
          mul_le_mul_right' (by omega) _
        have hj1 : j * h.element_size + h.element_size =
            (j + 1) * h.element_size := by ring
        omega
      · omega
    · have hgt : h.head < j := by omega
      apply memcpy_read_write_right
      · have hj2 : (h.head + 1) * h.element_size ≤ j * h.element_size :=
          mul_le_mul_right' (by omega) _
        omega
      · exact hoffb
      · omega

theorem push_correct_witness :
    ∃ h', ring_buffer_push (some hW) (some [9]) =
        (RING_BUFFER_OK, some h') ∧
      memcpy_read h'.buffer (hW.head * hW.element_size) hW.element_size =
        [9] ∧
      h'.head = (hW.head + 1) % hW.length ∧ h'.tail = hW.tail ∧
      (h'.is_full = true ↔ h'.head = hW.tail) ∧ h'.is_empty = false ∧
      (∀ j, j < hW.length → j ≠ hW.head → slot h' j = slot hW j) :=
  push_correct hW [9] (by decide) (by decide) rfl (by decide)

/-- C6: on an initialized, non-empty buffer with a non-null output
reference, `ring_buffer_pop` returns `Ok`, hands back exactly the
`element_size` bytes stored at byte offset `tail * element_size`, advances
`tail` to `(tail + 1) mod capacity`, sets `is_empty` exactly when the new
tail equals `head`, clears `is_full`, keeps `head`, and never writes the
internal storage (the popped slot's bytes stay in place). -/
theorem pop_correct (h : ring_buffer_t) (hI : RBInv h) (hB : WFb h)
    (hnem : h.is_empty = false) :
    ∃ h' out,
      ring_buffer_pop (some h) (some ()) = (RING_BUFFER_OK, some h', out) ∧
      out = memcpy_read h.buffer (h.tail * h.element_size) h.element_size ∧
      h'.tail = (h.tail + 1) % h.length ∧ h'.head = h.head ∧
      (h'.is_empty = true ↔ h.head = h'.tail) ∧ h'.is_full = false ∧
      h'.buffer = h.buffer := by
  obtain ⟨h', out, hpop, hout, hbuf, hL, hes, hhd, hfl, htl, hful, hiemp,
    hI', hB', hcnt, helems⟩ := pop_spec h hI hB hnem
  refine ⟨h', out, hpop, hout, htl, hhd, ?_, hful, hbuf⟩
  rw [htl]
  exact hiemp

theorem pop_correct_witness :
    ∃ h' out,
      ring_buffer_pop (some hOne) (some ()) =
        (RING_BUFFER_OK, some h', out) ∧
      out = memcpy_read hOne.buffer (hOne.tail * hOne.element_size)
        hOne.element_size ∧
      h'.tail = (hOne.tail + 1) % hOne.length ∧ h'.head = hOne.head ∧
      (h'.is_empty = true ↔ hOne.head = h'.tail) ∧ h'.is_full = false ∧
      h'.buffer = hOne.buffer :=
  pop_correct hOne (by decide) (by decide) rfl

/-- C7: on an initialized buffer with `is_empty` set, any number of
`ring_buffer_pop` calls all return `Empty` and leave the buffer — `head`,
`tail`, `is_full`, `is_empty`, storage bytes — exactly unchanged. -/
theorem pop_empty_idempotent (h : ring_buffer_t)
    (hflag : h.init_flag = RING_BUFFER_INITIALIZE_MASK)
    (hemp : h.is_empty = true) (n : Nat) :
    popN h n = (List.replicate n RING_BUFFER_EMPTY, h) := by
  induction n with
  | zero => rfl
  | succ n ih =>
    have hpop : ring_buffer_pop (some h) (some ()) =
        (RING_BUFFER_EMPTY, some h, []) := by
      simp only [ring_buffer_pop]
      rw [if_neg (by simp [hflag]), if_pos hemp]
    simp [popN, hpop, ih, List.replicate_succ]

theorem pop_empty_idempotent_witness :
    popN hW 3 = (List.replicate 3 RING_BUFFER_EMPTY, hW) :=
  pop_empty_idempotent hW rfl rfl 3

/-- C8: on any initialized buffer whose storage spans
`capacity * element_size` bytes, `ring_buffer_clear` returns `Ok`, zeroes
every storage byte, resets `head = tail = 0`, sets `is_empty`, clears
`is_full`, keeps `element_size`, `capacity` and the initialization flag,
and afterwards `ring_buffer_state` returns `Empty`. -/
theorem clear_resets_buffer (h : ring_buffer_t)
    (hflag : h.init_flag = RING_BUFFER_INITIALIZE_MASK)
    (hlen : h.buffer.length = h.length * h.element_size) :
    ∃ h', ring_buffer_clear (some h) = (RING_BUFFER_OK, some h') ∧
      h'.buffer = List.replicate (h.length * h.element_size) 0 ∧
      h'.head = 0 ∧ h'.tail = 0 ∧ h'.is_empty = true ∧ h'.is_full = false ∧
      h'.element_size = h.element_size ∧ h'.length = h.length ∧
      h'.init_flag = h.init_flag ∧
      ring_buffer_state (some h') = RING_BUFFER_EMPTY := by
  have hclear : ring_buffer_clear (some h) = (RING_BUFFER_OK,
      some { h with
        buffer := memset_zero h.buffer (h.length * h.element_size)
        head := 0
        tail := 0
        is_full := false
        is_empty := true }) := by
    simp only [ring_buffer_clear]
    rw [if_neg (by simp [hflag])]
  refine ⟨_, hclear, ?_, rfl, rfl, rfl, rfl, rfl, rfl, rfl, ?_⟩
  · show memset_zero h.buffer (h.length * h.element_size) =
      List.replicate (h.length * h.element_size) 0
    unfold memset_zero
    rw [← hlen, List.drop_length, List.append_nil]
  · simp only [ring_buffer_state]
    rw [if_neg (by simp [hflag])]
    simp

theorem clear_resets_buffer_witness :
    ∃ h', ring_buffer_clear (some hOne) = (RING_BUFFER_OK, some h') ∧
      h'.buffer = List.replicate (hOne.length * hOne.element_size) 0 ∧
      h'.head = 0 ∧ h'.tail = 0 ∧ h'.is_empty = true ∧ h'.is_full = false ∧
      h'.element_size = hOne.element_size ∧ h'.length = hOne.length ∧
      h'.init_flag = hOne.init_flag ∧
      ring_buffer_state (some h') = RING_BUFFER_EMPTY :=
  clear_resets_buffer hOne rfl rfl

/-- C9: on an uninitialized handle, `ring_buffer_init` returns
`InvalidParameters` for an absent storage pointer, for `element_size = 0`
and for `capacity < 2` (in particular capacity 1), and for every
`element_size ≥ 1`, `capacity ≥ 2` and present storage it returns `Ok`,
after which `head = tail = 0`, the buffer is marked initialized, and
`ring_buffer_state` returns `Empty`. -/
theorem init_validates_params (h : ring_buffer_t)
    (hni : h.init_flag ≠ RING_BUFFER_INITIALIZE_MASK)
    (element_size length : Nat) (buf : List Nat) :
    (ring_buffer_init (some h) element_size length none).1 =
      RING_BUFFER_INVALID_PARAMS ∧
    (element_size = 0 ∨ length < 2 →
      ring_buffer_init (some h) element_size length (some buf) =
        (RING_BUFFER_INVALID_PARAMS, some h)) ∧
    (1 ≤ element_size → 2 ≤ length →
      ∃ h', ring_buffer_init (some h) element_size length (some buf) =
          (RING_BUFFER_OK, some h') ∧
        h'.head = 0 ∧ h'.tail = 0 ∧
        h'.init_flag = RING_BUFFER_INITIALIZE_MASK ∧
        ring_buffer_state (some h') = RING_BUFFER_EMPTY) := by
  refine ⟨rfl, ?_, ?_⟩
  · intro hv
    simp only [ring_buffer_init]
    rw [if_neg hni, if_pos hv]
  · intro h1 h2
    simp only [ring_buffer_init]
    rw [if_neg hni, if_neg (by omega)]
    refine ⟨_, rfl, rfl, rfl, rfl, ?_⟩
    simp only [ring_buffer_state]
    rw [if_neg (by simp)]
    simp

theorem init_validates_params_witness :
    ((ring_buffer_init (some hU) 1 1 none).1 =
        RING_BUFFER_INVALID_PARAMS ∧
      (1 = 0 ∨ 1 < 2 →
        ring_buffer_init (some hU) 1 1 (some [0, 0]) =
          (RING_BUFFER_INVALID_PARAMS, some hU)) ∧
      (1 ≤ 1 → 2 ≤ 1 →
        ∃ h', ring_buffer_init (some hU) 1 1 (some [0, 0]) =
            (RING_BUFFER_OK, some h') ∧
          h'.head = 0 ∧ h'.tail = 0 ∧
          h'.init_flag = RING_BUFFER_INITIALIZE_MASK ∧
          ring_buffer_state (some h') = RING_BUFFER_EMPTY)) ∧
    ((ring_buffer_init (some hU) 1 2 none).1 =
        RING_BUFFER_INVALID_PARAMS ∧
      (1 = 0 ∨ 2 < 2 →
        ring_buffer_init (some hU) 1 2 (some [0, 0]) =
          (RING_BUFFER_INVALID_PARAMS, some hU)) ∧
      (1 ≤ 1 → 2 ≤ 2 →
        ∃ h', ring_buffer_init (some hU) 1 2 (some [0, 0]) =
            (RING_BUFFER_OK, some h') ∧
          h'.head = 0 ∧ h'.tail = 0 ∧
          h'.init_flag = RING_BUFFER_INITIALIZE_MASK ∧
          ring_buffer_state (some h') = RING_BUFFER_EMPTY)) :=
  ⟨init_validates_params hU (by decide) 1 1 [0, 0],
   init_validates_params hU (by decide) 1 2 [0, 0]⟩

/-- C10: on a handle that is currently initialized, `ring_buffer_init`
returns `AlreadyInitialized` whatever the `element_size` and `capacity`
arguments are (the initialized check runs before parameter validation);
only a null handle or null storage pointer takes precedence, with
`InvalidParameters`. -/
theorem init_already_initialized_precedence (h : ring_buffer_t)
    (hinit : h.init_flag = RING_BUFFER_INITIALIZE_MASK)
    (element_size length : Nat) (buf : List Nat) :
    ring_buffer_init (some h) element_size length (some buf) =
      (RING_BUFFER_ALREADY_INITIALIZED, some h) ∧
    (ring_buffer_init (some h) element_size length none).1 =
      RING_BUFFER_INVALID_PARAMS ∧
    (ring_buffer_init none element_size length (some buf)).1 =
      RING_BUFFER_INVALID_PARAMS := by
  refine ⟨?_, rfl, rfl⟩
  simp only [ring_buffer_init]
  rw [if_pos hinit]

theorem init_already_initialized_precedence_witness :
    ring_buffer_init (some hW) 0 1 (some []) =
      (RING_BUFFER_ALREADY_INITIALIZED, some hW) ∧
    (ring_buffer_init (some hW) 0 1 none).1 =
      RING_BUFFER_INVALID_PARAMS ∧
    (ring_buffer_init none 0 1 (some [])).1 =
      RING_BUFFER_INVALID_PARAMS :=
  init_already_initialized_precedence hW rfl 0 1 []
